import Mathlib

/-!
Verification of the DocxExporter block-to-document rendering engine
(`tgadmin/ugc/admin.py`).  The definitions below are a shallow embedding of
the Python source: each `def` mirrors one function (or one coherent slice of
a function) of the source, keeping the source's names where Lean allows it.
Machine-level docx objects (paragraphs, runs, oxml) are modelled only by the
observable data the claims are about (cell texts, column counts, style
names, emitted events).
-/

namespace DocsieDocx

/-! ## Data model (§3 of the spec): blocks, entities, style ranges -/

/-- One entry of a block's `entityRanges` list: `{key, offset, length}`.
The Python code looks entities up with `str(entity['key'])`, so the key is
modelled as a string. -/
structure EntityRange where
  key : String
  offset : Nat
  length : Nat
deriving DecidableEq

/-- One entry of the article's `entity_map`: `{type: ..., data: {href | src ...}}`.
Only the fields `add_text` reads are modelled; `etype = none` models a map
entry that has no `'type'` key at all. -/
structure Entity where
  etype : Option String
  href : String
deriving DecidableEq

/-- A style token as stored in `inlineStyleRanges`: either a plain string
token (`'BOLD'`, `'header-step'`, ...) or one of the dict-shaped tokens
`{'link': href}` / `{'img': entity}` that `add_text` synthesises from
entity ranges. -/
inductive StyleTok where
  | str (name : String)
  | link (href : String)
  | img (e : Entity)
deriving DecidableEq

/-- One entry of a block's `inlineStyleRanges` list. -/
structure StyleRange where
  style : StyleTok
  offset : Nat
  length : Nat
deriving DecidableEq

/-- One input block.  `dataTableCols` models `block['data']['table']['cols']`,
the column count a document-version-3 cell block may carry (`none` when the
block has no `data.table` payload). -/
structure Block where
  type : String
  key : String
  text : String
  depth : Nat
  entityRanges : List EntityRange
  inlineStyleRanges : List StyleRange
  dataTableCols : Option Nat
deriving DecidableEq

/-! ## Table-cell state machine (`DocxExporter._add_table_cell`)

State mirrored from the exporter instance: `self.__table` (the open table
with its column count and rows of cell texts), `self.cells` (the cell
cursor).  `opens` counts the `document.add_table` calls so that claims
about "exactly one table is opened" are expressible. -/

/-- The open table: column count and rows, each row being the list of its
cell texts (a fresh row has every cell empty). -/
structure DTable where
  cols : Nat
  rows : List (List String)
deriving DecidableEq

/-- The exporter's table-related mutable state. -/
structure TableState where
  table : Option DTable
  cells : Nat
  opens : Nat
deriving DecidableEq

/-- Column count chosen when `_add_table_cell` opens a table on the legacy
path, mirroring the source's `if/elif` chain over `block['depth']`
(branch order 0, 1, 3, 2, else). -/
def openCols (depth : Nat) : Nat :=
  if depth = 0 then 2
  else if depth = 1 then 4
  else if depth = 3 then 3
  else if depth = 2 then 2
  else 1

/-- Modelled from the spec: the depth-to-column mapping as the spec states
it, `{0 → 2, 1 → 4, 2 → 2, 3 → 3, other → 1}`.  Kept separate from
`openCols` so the two can be compared. -/
def columnsForDepth_spec (depth : Nat) : Nat :=
  match depth with
  | 0 => 2
  | 1 => 4
  | 2 => 2
  | 3 => 3
  | _ => 1

/-- The legacy lookback test of `_add_table_cell`:
`old_block['type'] != 'cell' or index_old < 0 or old_block['depth'] != block['depth']`.
`prev = none` stands for the first block of the article, where
`index_old < 0` (and the wrapped-around synthetic terminal block is not a
cell), so the table is reset either way. -/
def resetCond (prev : Option Block) (b : Block) : Bool :=
  match prev with
  | none => true
  | some p => (p.type != "cell") || (p.depth != b.depth)

/-- Legacy open step of `_add_table_cell`: reset `self.__table` when the
lookback test fires, then `if not self.__table:` open a fresh one-row table
with `openCols` columns.  Note that `self.cells` is NOT touched here. -/
def open_phase (st : TableState) (prev : Option Block) (b : Block) : TableState :=
  let st1 := if resetCond prev b then { st with table := none } else st
  match st1.table with
  | none =>
      { st1 with
        table := some ⟨openCols b.depth, [List.replicate (openCols b.depth) ""]⟩,
        opens := st1.opens + 1 }
  | some _ => st1

/-- Write step of `_add_table_cell` (shared by both version paths):
try `row.cells[self.cells]` on the last row; on `IndexError` reset the
cursor, append a fresh row and write there; then `self.cells += 1`.
`table = none` models the `AttributeError` on `self.__table.rows` being
swallowed by the handler around `_add_table_cell` (state unchanged). -/
def write_phase (st : TableState) (s : String) : TableState :=
  match st.table with
  | none => st
  | some t =>
    if st.cells < t.cols then
      { st with
        table := some ⟨t.cols, t.rows.set (t.rows.length - 1)
          ((t.rows.getD (t.rows.length - 1) []).set st.cells s)⟩,
        cells := st.cells + 1 }
    else
      { st with
        table := some ⟨t.cols, t.rows ++ [(List.replicate t.cols "").set 0 s]⟩,
        cells := 1 }

/-- `_add_table_cell`: on `doc_version == 3` a table is opened (and the
cursor reset) only when the block carries a `data.table` payload, with the
column count taken from that payload; otherwise the legacy lookback path
runs.  In both cases the write step follows. -/
def add_table_cell (ver : Nat) (st : TableState) (prev : Option Block) (b : Block) :
    TableState :=
  if ver = 3 then
    match b.dataTableCols with
    | some cols =>
        write_phase
          { st with
            table := some ⟨cols, [List.replicate cols ""]⟩,
            cells := 0,
            opens := st.opens + 1 }
          b.text
    | none => write_phase st b.text
  else
    write_phase (open_phase st prev b) b.text

/-- The export loop restricted to a run of consecutive `cell` blocks:
each block is dispatched to `_add_table_cell` with the previous block of
the sequence as lookback context (the source recovers it through
`self.keys.index(block['key']) - 1`; with the article's unique keys that
is exactly the positional predecessor). -/
def run_cells (ver : Nat) (st : TableState) (prev : Option Block) :
    List Block → TableState
  | [] => st
  | b :: bs => run_cells ver (add_table_cell ver st prev b) (some b) bs

/-! ### Expected table contents (spec side)

`chunkPad c ts` distributes the texts `ts` over rows of width `c` in
order, implicitly zero-padding the last row with empty cells — the
distribution the spec's table-cell grouping property describes. -/

/-- Pad a row on the right with empty cells up to width `c`. -/
def padTo (c : Nat) (row : List String) : List String :=
  row ++ List.replicate (c - row.length) ""

/-- Fuel-driven worker for `chunkPad` (the fuel is only a termination
device; `chunkPad` always supplies enough). -/
def chunkPadAux (c : Nat) : Nat → List String → List (List String)
  | _, [] => []
  | 0, _ :: _ => []
  | fuel + 1, t :: ts =>
      padTo c (t :: ts.take (c - 1)) :: chunkPadAux c fuel (ts.drop (c - 1))

/-- Modelled from the spec: distribute the texts over `ceil(N / c)` rows of
width `c`, the last row implicitly zero-padded. -/
def chunkPad (c : Nat) (ts : List String) : List (List String) :=
  chunkPadAux c ts.length ts

/-- Row-filling as the write step performs it: starting from a last row
`row` with the cursor at `p`, write each text either into the current last
row or (on overflow) into a freshly appended row.  Returns the rows
produced from `row` on, and the final cursor. -/
def fillFrom (c : Nat) : List String → Nat → List String → List (List String) × Nat
  | row, p, [] => ([row], p)
  | row, p, t :: ts =>
    if p < c then
      fillFrom c (row.set p t) (p + 1) ts
    else
      let r := fillFrom c ((List.replicate c "").set 0 t) 1 ts
      (row :: r.1, r.2)

/-! ## Depth-normalization pre-pass (`DocxExporter.export`, legacy versions)

The pre-pass walks the article's blocks with a while loop; on a `cell`
block it peeks the depths of the block found via `keys.index(block['key'])`
and its two successors (falling back to the neutral `[1, 1, 1]` when the
peek runs past the end), and rewrites the `[1, ?, 2]` triple to depth 3. -/

/-- `self.keys.index(key)`: first position of the block with this key. -/
def idxOfKey (l : List Block) (k : String) : Nat :=
  l.findIdx (fun b => b.key == k)

/-- The three peeked depths starting at position `j`, with the source's
`IndexError` fallback to `[1, 1, 1]`. -/
def peekDepths (l : List Block) (j : Nat) : Nat × Nat × Nat :=
  match l[j]?, l[j + 1]?, l[j + 2]? with
  | some a, some b, some c => (a.depth, b.depth, c.depth)
  | _, _, _ => (1, 1, 1)

/-- Set one block's depth to 3 (out-of-range indices unchanged). -/
def setDepthAt (l : List Block) (i : Nat) : List Block :=
  match l[i]? with
  | some b => l.set i { b with depth := 3 }
  | none => l

/-- One while-loop execution of the pre-pass, fuel-driven; on a rewrite the
index advances by 2 (the extra `index_cell += 1` inside the branch),
otherwise by 1. -/
def normStep : Nat → List Block → Nat → List Block
  | 0, l, _ => l
  | fuel + 1, l, i =>
    match l[i]? with
    | none => l
    | some b =>
      if b.type = "cell" then
        let depths := peekDepths l (idxOfKey l b.key)
        if b.depth = 1 ∧ depths.2.2 = 2 then
          normStep fuel (setDepthAt (setDepthAt (setDepthAt l i) (i + 1)) (i + 2)) (i + 2)
        else normStep fuel l (i + 1)
      else normStep fuel l (i + 1)

/-- The whole depth-normalization pre-pass over an article's block list. -/
def normalizeDepths (l : List Block) : List Block :=
  normStep l.length l 0

/-! ## Markdown tables (`_read_markdown_table` / `_add_mdtable`) -/

/-- Python `str.split(sep)` for a one-character separator. -/
def splitOnChar (c : Char) : List Char → List (List Char)
  | [] => [[]]
  | ch :: rest =>
    match splitOnChar c rest with
    | [] => [[]]
    | g :: gs => if ch = c then [] :: g :: gs else (ch :: g) :: gs

/-- Python `str.strip()` whitespace test. -/
def pyIsSpace (c : Char) : Bool :=
  c = ' ' || c = '\t' || c = '\n' || c = '\r' || c = '\x0b' || c = '\x0c'

/-- Python `str.strip()`. -/
def pyStrip (s : List Char) : List Char :=
  ((s.dropWhile pyIsSpace).reverse.dropWhile pyIsSpace).reverse

/-- `[t.strip() for t in line.split('|')[1:-1]]`. -/
def mdCells (line : List Char) : List String :=
  (((splitOnChar '|' line).drop 1).dropLast).map (fun t => (pyStrip t).asString)

/-- Python dict assignment `d[k] = v` on an insertion-ordered dict. -/
def dictInsert (d : List (String × String)) (k v : String) : List (String × String) :=
  if d.any (fun p => p.1 = k) then d.map (fun p => if p.1 = k then (k, v) else p)
  else d ++ [(k, v)]

/-- `for col, value in zip(header, values): data[col] = value`. -/
def zipDict (header values : List String) : List (String × String) :=
  (List.zip header values).foldl (fun d kv => dictInsert d kv.1 kv.2) []

/-- `DocxExporter._read_markdown_table`: slices off the first and last
character of the text, splits into lines, takes the header cells from line
0, skips line 1, and turns every later line into a dict pairing the header
cells with the line's cells. -/
def read_markdown_table (table : String) : List (List (String × String)) :=
  let lines := splitOnChar '\n' ((table.toList.drop 1).dropLast)
  let header :=
    match lines with
    | [] => []
    | l0 :: _ => mdCells l0
  (lines.drop 2).map (fun line => zipDict header (mdCells line))

/-- The table `_add_mdtable` builds, as observable data: the column count
passed to `document.add_table`, the header-row texts and the data-row
texts. -/
structure MdTable where
  cols : Nat
  header : List String
  data : List (List String)
deriving DecidableEq

/-- `DocxExporter._add_mdtable`: parse the block text, return without a
table when the parse is empty, otherwise build a table whose column count
is the first data row's length, whose header row holds the first dict's
keys and whose data rows hold each dict's values. -/
def add_mdtable (text : String) : Option MdTable :=
  let json_table := read_markdown_table text
  if json_table.length = 0 then none
  else
    let rows := (json_table.headD []).map (fun p => p.1)
    let columns := json_table.map (fun row => row.map (fun p => p.2))
    some ⟨(columns.headD []).length, rows, columns⟩

/-! ## List items (`_add_list_item`) -/

/-- Ordered-list level: `depth_level + 2 if depth_level + 2 <= 4 else 3`. -/
def ordered_depth_level (depth : Nat) : Nat :=
  if depth + 2 ≤ 4 then depth + 2 else 3

/-- Unordered-list level: `depth_level += 2`, unclamped. -/
def unordered_depth_level (depth : Nat) : Nat :=
  depth + 2

/-- The paragraph style name `_add_list_item` selects for a list block
(`none` for non-list block types, which the function ignores). -/
def add_list_item_style (b : Block) : Option String :=
  if b.type = "ordered-list-item" then
    some ("List Number " ++ toString (ordered_depth_level b.depth))
  else if b.type = "unordered-list-item" then
    some ("List Bullet " ++ toString (unordered_depth_level b.depth))
  else none

/-- Modelled from the spec (amended): ordered levels clamp to 3 once
`depth + 2` exceeds 4, i.e. `depth ≤ 2 → depth + 2`, otherwise 3. -/
def orderedLevelSpec (depth : Nat) : Nat :=
  if depth ≤ 2 then depth + 2 else 3

/-! ## Header-step counter (`export` / `_add_header_step`) -/

/-- The text `_add_header_step` renders before the block's own text:
`str(num) + '. '` after the increment. -/
def header_step_text (n : Nat) : String :=
  toString n ++ ". "

/-- Whether `set_styles` turns on bold for a style token (`'header-step'`
sets `run.bold = True`; `'BOLD'` calls `set_bold`). -/
def set_styles_bold (tok : StyleTok) : Bool :=
  match tok with
  | .str s => s == "header-step" || s == "BOLD"
  | _ => false

/-- One article's pass of the export loop, restricted to the header-step
counter: threads `step_header_elems['num']` through the blocks, and for
each `header-step` block records the incremented number and the rendered
numbering text (other blocks record `none`). -/
def article_header_steps : Nat → List Block → Nat × List (Option (Nat × String))
  | n, [] => (n, [])
  | n, b :: bs =>
    if b.type == "header-step" then
      let r := article_header_steps (n + 1) bs
      (r.1, some (n + 1, header_step_text (n + 1)) :: r.2)
    else
      let r := article_header_steps n bs
      (r.1, none :: r.2)

/-- The articles loop of one book, threading the counter across articles
(the source resets `step_header_elems` once per book, before this loop). -/
def book_header_steps : Nat → List (List Block) → List (List (Option (Nat × String)))
  | _, [] => []
  | n, art :: arts =>
    let r := article_header_steps n art
    r.2 :: book_header_steps r.1 arts

/-- Header-step numbering of one book as `export` produces it: the counter
starts at 0 at the top of the book iteration. -/
def export_header_steps (articles : List (List Block)) :
    List (List (Option (Nat × String))) :=
  book_header_steps 0 articles

/-- Number of header-step blocks in an article. -/
def cntSteps (bs : List Block) : Nat :=
  bs.countP (fun b => b.type == "header-step")

/-- Number of header-step blocks in a whole book. -/
def totalSteps (arts : List (List Block)) : Nat :=
  (arts.map cntSteps).sum

/-! ## Text-run building (`add_text`): in-place range preparation

`add_text` folds the block's entity ranges into the block's own
`inlineStyleRanges` list (appending), appends a synthetic header-step
range for header-step blocks, and bubble-sorts that same list in place.
`add_text_ranges` computes the list the block's `inlineStyleRanges` holds
after one such call. -/

/-- The inline-style ranges the entity-folding loop appends: one `link`
range per `LINK` entity, one `img` range per `IMG` entity; entities whose
key is missing from the map, that carry no `'type'`, or whose type is
anything else append nothing. -/
def entityStyleRanges (em : List (String × Entity)) : List EntityRange → List StyleRange
  | [] => []
  | er :: ers =>
    match em.lookup er.key with
    | none => entityStyleRanges em ers
    | some e =>
      match e.etype with
      | none => entityStyleRanges em ers
      | some t =>
        if t = "LINK" then ⟨.link e.href, er.offset, er.length⟩ :: entityStyleRanges em ers
        else if t = "IMG" then ⟨.img e, er.offset, er.length⟩ :: entityStyleRanges em ers
        else entityStyleRanges em ers

/-- All ranges one `add_text` call appends to the block's list: the folded
entity ranges plus, for a header-step block, the synthetic
`{'style': 'header-step', 'offset': 0, 'length': len(text)}` range. -/
def appendedRanges (em : List (String × Entity)) (b : Block) : List StyleRange :=
  entityStyleRanges em b.entityRanges ++
    (if b.type = "header-step" then [⟨.str "header-step", 0, b.text.length⟩] else [])

/-- One sweep of the bubble sort, carrying the element under comparison. -/
def bubblePassGo (cur : StyleRange) : List StyleRange → List StyleRange
  | [] => [cur]
  | b :: rest =>
    if b.offset < cur.offset then b :: bubblePassGo cur rest
    else cur :: bubblePassGo b rest

/-- One sweep of the bubble sort over the whole list. -/
def bubblePass : List StyleRange → List StyleRange
  | [] => []
  | a :: rest => bubblePassGo a rest

/-- Iterated sweeps. -/
def bubbleIter : Nat → List StyleRange → List StyleRange
  | 0, l => l
  | n + 1, l => bubbleIter n (bubblePass l)

/-- The source's quadratic adjacent-swap sort by ascending offset (its
shrinking inner loop performs the same swaps as a full sweep, since the
already-settled tail never swaps again). -/
def bubbleSort (l : List StyleRange) : List StyleRange :=
  bubbleIter l.length l

/-- Contents of the block's `inlineStyleRanges` list after one `add_text`
call: the appends followed by the in-place sort. -/
def add_text_ranges (em : List (String × Entity)) (b : Block) : List StyleRange :=
  bubbleSort (b.inlineStyleRanges ++ appendedRanges em b)

/-- The block object after one `add_text` call (the only block field
`add_text` mutates is `inlineStyleRanges`). -/
def add_text_mutate (em : List (String × Entity)) (b : Block) : Block :=
  { b with inlineStyleRanges := add_text_ranges em b }

/-! ## Style merge (`DocxMergeStyles.__merge`)

A paragraph's style font is modelled as an attribute-name/value map; the
template sample for a style name is a map from attribute name to the copy
outcome (`Except.error ()` models the attribute copy raising, e.g. a
dotted read through a missing nested attribute).  The single `try/except`
around the whole of `__merge` means any raise makes the call return
`None`. -/

/-- A produced-document paragraph: its style name and its style font. -/
structure MPara where
  styleName : String
  font : List (String × Int)
deriving DecidableEq

/-- `setattr` on the font attribute map. -/
def setAttrVal (f : List (String × Int)) (a : String) (v : Int) : List (String × Int) :=
  if f.any (fun p => p.1 = a) then f.map (fun p => if p.1 = a then (a, v) else p)
  else f ++ [(a, v)]

/-- The inner `for attr in self.__copy_attrs` loop: each attribute copy
either yields a value to set or raises; a raise propagates immediately
(there is no per-attribute handler), abandoning the remaining attributes. -/
def copy_attrs_fold (based : String → Except Unit Int) :
    List String → List (String × Int) → Except Unit (List (String × Int))
  | [], f => .ok f
  | a :: rest, f =>
    match based a with
    | .error e => .error e
    | .ok v => copy_attrs_fold based rest (setAttrVal f a v)

/-- The `for paragraph in input_doc.paragraphs` loop: paragraphs whose
style name has a template sample get the attribute list copied onto their
font; a raise propagates, abandoning the remaining paragraphs too. -/
def merge_paragraphs (basedFonts : String → Option (String → Except Unit Int))
    (attrs : List String) : List MPara → Except Unit (List MPara)
  | [] => .ok []
  | p :: ps =>
    match basedFonts p.styleName with
    | none => (merge_paragraphs basedFonts attrs ps).map (fun r => p :: r)
    | some based =>
      match copy_attrs_fold based attrs p.font with
      | .error e => .error e
      | .ok f => (merge_paragraphs basedFonts attrs ps).map (fun r => { p with font := f } :: r)

/-- `DocxMergeStyles.__merge` with its outer `try/except`: any raise is
captured and the function falls off the end, returning `None`. -/
def docx_merge_styles (basedFonts : String → Option (String → Except Unit Int))
    (attrs : List String) (paras : List MPara) : Option (List MPara) :=
  match merge_paragraphs basedFonts attrs paras with
  | .ok ps => some ps
  | .error _ => none

/-- The source's default `__copy_attrs` list, in order. -/
def defaultCopyAttrs : List String :=
  ["italic", "math", "no_proof", "web_hidden", "strike", "subscript", "rtl",
   "size", "color.rgb", "shadow", "highlight_color", "hidden", "cs_bold", "name"]

/-! ## Picture insertion (`_set_picture`): error flow

Only the claim-relevant control flow is modelled: a paragraph is added,
then `add_run().add_picture(...)` either succeeds (followed by the rescale
step and, for a non-empty label, a caption paragraph) or raises
`UnrecognizedImageError`, which the inner handler re-raises — skipping the
rescale and caption — and the function's outer `except Exception` then
absorbs, so the caller observes no exception. -/

/-- Observable artifacts the picture-insertion path emits. -/
inductive PicEvent where
  | paragraph
  | picture
  | caption (label : String)
deriving DecidableEq

/-- The body of `_set_picture` up to the outer handler: emitted artifacts
plus the exception escaping the body, if any. -/
def set_picture_body (decode : Except Unit Unit) (label : String) :
    List PicEvent × Option Unit :=
  match decode with
  | .error e => ([.paragraph], some e)
  | .ok _ =>
      ([.paragraph, .picture] ++ (if label = "" then [] else [.caption label]), none)

/-- `_set_picture` as the caller sees it: the outer `except Exception`
turns any escaping exception into a logged no-op, so the second component
(the exception reaching the caller) is always `none`. -/
def set_picture (decode : Except Unit Unit) (label : String) :
    List PicEvent × Option Unit :=
  match set_picture_body decode label with
  | (evs, some _) => (evs, none)
  | (evs, none) => (evs, none)

/-! ## Concrete inputs used by witnesses and counterexamples -/

/-- A cell block with the given key, depth and text (no `data.table`). -/
def cellBlock (k : String) (d : Nat) (t : String) : Block :=
  ⟨"cell", k, t, d, [], [], none⟩

/-- A version-3 cell block carrying a 7-column `data.table` payload. -/
def v3CellBlock : Block :=
  ⟨"cell", "v3", "T", 0, [], [], some 7⟩

/-- A header-step block. -/
def hsBlock : Block :=
  ⟨"header-step", "k1", "Step", 0, [], [], none⟩

/-- An entity map holding one LINK entity under key "1". -/
def exEntityMap : List (String × Entity) :=
  [("1", ⟨some "LINK", "x"⟩)]

/-- An unstyled block whose single entity range references the LINK
entity of `exEntityMap`. -/
def exLinkBlock : Block :=
  ⟨"unstyled", "b1", "ab", 0, [⟨"1", 0, 1⟩], [], none⟩

/-- A template sample whose `italic` copy raises and whose other
attribute copies yield 12. -/
def exG : String → Except Unit Int :=
  fun a => if a = "italic" then .error () else .ok 12

/-- A template font map sampling only the style name "Normal". -/
def exBasedFonts : String → Option (String → Except Unit Int) :=
  fun s => if s = "Normal" then some exG else none

/-- Two produced paragraphs styled "Normal" with empty fonts. -/
def exParas : List MPara :=
  [⟨"Normal", []⟩, ⟨"Normal", []⟩]

/-- A two-attribute copy list whose first attribute fails on `exG`. -/
def exAttrs : List String :=
  ["italic", "size"]

/-- What the claimed per-attribute recovery would produce on `exAttrs` /
`exParas`: `italic` skipped, `size` still copied onto both paragraphs. -/
def claimMergedParas : List MPara :=
  [⟨"Normal", [("size", 12)]⟩, ⟨"Normal", [("size", 12)]⟩]

/-- A two-block, already-normalized article (distinct keys, no `[1, ?, 2]`
pattern). -/
def normBlocks : List Block :=
  [cellBlock "a" 0 "x", cellBlock "b" 0 "y"]

/-! ## Theorems -/

/-- The source's `if/elif` chain over the depth equals the spec's mapping
table. -/
theorem openCols_eq_spec : ∀ d : Nat, openCols d = columnsForDepth_spec d
  | 0 => rfl
  | 1 => rfl
  | 2 => rfl
  | 3 => rfl
  | _ + 4 => rfl

/-- C1 (amended to the legacy path): whenever a cell block causes
`_add_table_cell` to open a new table on the legacy path — the lookback
test fires or no table is open — the opened table's column count is
exactly `columnsForDepth_spec` of the block's depth ({0→2, 1→4, 2→2, 3→3,
other→1}), a total deterministic function of the depth alone. -/
theorem open_table_columns (st : TableState) (prev : Option Block) (b : Block)
    (hopen : resetCond prev b = true ∨ st.table = none) :
    open_phase st prev b =
      { table := some ⟨columnsForDepth_spec b.depth,
          [List.replicate (columnsForDepth_spec b.depth) ""]⟩,
        cells := st.cells, opens := st.opens + 1 } := by
  have hcols := openCols_eq_spec b.depth
  rcases hopen with h | h
  · simp only [open_phase, h, if_true, hcols]
  · by_cases hr : resetCond prev b <;> simp [open_phase, hr, h, hcols]

/-- Witness for `open_table_columns` at a concrete block of depth 5 (the
"other depth" degenerate single-column case). -/
theorem open_table_columns_witness :
    resetCond none (cellBlock "k" 5 "t") = true ∧
    open_phase ⟨none, 0, 0⟩ none (cellBlock "k" 5 "t")
      = ⟨some ⟨columnsForDepth_spec 5, [List.replicate (columnsForDepth_spec 5) ""]⟩, 0, 1⟩ :=
  ⟨by decide, open_table_columns ⟨none, 0, 0⟩ none (cellBlock "k" 5 "t") (Or.inl (by decide))⟩

/-- C1 counterexample: on the version-3 path a cell block carrying a
`data.table` payload of 7 columns opens a 7-column table although its
depth is 0, so the column count of an opened table is not always
determined by the block's depth. -/
theorem open_table_columns_cx :
    add_table_cell 3 ⟨none, 0, 0⟩ none v3CellBlock
      = ⟨some ⟨7, [["T", "", "", "", "", "", ""]]⟩, 1, 1⟩ ∧
    (7 : Nat) ≠ columnsForDepth_spec v3CellBlock.depth := by decide

/-- C2 counterexample: after a legacy run of two depth-1 cells leaves the
cell cursor at 2, a following run of a single depth-0 cell opens a fresh
2-column table whose final row count is 2, not `ceil(1 / 2) = 1` — the
whole first row stays empty because the cursor was not reset. -/
theorem table_cell_grouping_cx :
    run_cells 0 ⟨none, 0, 0⟩ none
        [cellBlock "k1" 1 "X1", cellBlock "k2" 1 "X2", cellBlock "k3" 0 "A"]
      = ⟨some ⟨2, [["", ""], ["A", ""]]⟩, 1, 2⟩ ∧
    (2 : Nat) ≠ (1 + 2 - 1) / 2 := by decide

/-- C4: evaluating the markdown-table path on the spec's example input
`"|h1|h2|\n|--|--|\n|a|b|\n"` — the code slices off the leading pipe
before splitting, so the header keeps only `"h2"` and the zip truncates
the data row, yielding a 1-column table with header `["h2"]` and data
`[["a"]]` instead of the claimed 2-column table. -/
theorem mdtable_parse_eval :
    add_mdtable "|h1|h2|\n|--|--|\n|a|b|\n" = some ⟨1, ["h2"], [["a"]]⟩ ∧
    add_mdtable "|h1|h2|\n|--|--|\n|a|b|\n" ≠ some ⟨2, ["h1", "h2"], [["a", "b"]]⟩ := by
  decide

/-- C5 (amended): ordered-list levels are `depth + 2` clamped to 3 (not 4)
once `depth + 2` exceeds 4, so ordered depth 0 maps to level 2 but ordered
depth 3 maps to level 3; unordered-list levels are `depth + 2` unclamped,
so unordered depth 0 maps to 2 and depth 5 maps to 7. -/
theorem list_depth_mapping :
    (∀ d, ordered_depth_level d = orderedLevelSpec d) ∧
    (∀ d, unordered_depth_level d = d + 2) ∧
    ordered_depth_level 0 = 2 ∧ ordered_depth_level 3 = 3 ∧
    unordered_depth_level 0 = 2 ∧ unordered_depth_level 5 = 7 := by
  refine ⟨fun d => ?_, fun d => rfl, rfl, rfl, rfl, rfl⟩
  unfold ordered_depth_level orderedLevelSpec
  split <;> split <;> omega

/-- C5 counterexample: an ordered-list block at depth 3 gets style
`"List Number 3"`, i.e. level 3, not the claimed level 4. -/
theorem list_depth_mapping_cx :
    add_list_item_style ⟨"ordered-list-item", "k", "t", 3, [], [], none⟩
      = some "List Number 3" ∧
    ordered_depth_level 3 ≠ 4 := by decide

/-- C6 counterexample: one book with two articles, each holding one
header-step block — the second article's block is numbered "2. ", not
"1. ", because the counter is reset per book, not per article. -/
theorem header_step_counter_cx :
    export_header_steps [[hsBlock], [hsBlock]]
      = [[some (1, "1. ")], [some (2, "2. ")]] ∧
    export_header_steps [[hsBlock], [hsBlock]]
      ≠ [[some (1, "1. ")], [some (1, "1. ")]] := by decide

/-- C7 counterexample: with a two-attribute copy list whose first
attribute copy raises, the merge returns `None` instead of skipping the
failed attribute and still copying the second one onto both paragraphs. -/
theorem merge_attr_failure_cx :
    docx_merge_styles exBasedFonts exAttrs exParas = none ∧
    docx_merge_styles exBasedFonts exAttrs exParas ≠ some claimMergedParas := by decide

/-- C8 (amended): the decode failure is re-raised inside `_set_picture`
but caught by the routine's own outer handler: no exception ever reaches
the caller (second component always `none`), and on a decode failure the
remaining steps of the routine (rescale, caption) are skipped, leaving
only the already-added paragraph. -/
theorem picture_error_absorbed :
    (∀ (decode : Except Unit Unit) (label : String), (set_picture decode label).2 = none) ∧
    (∀ label : String, (set_picture (.error ()) label).1 = [PicEvent.paragraph]) := by
  constructor
  · intro d l
    unfold set_picture
    rcases h : set_picture_body d l with ⟨evs, err⟩
    cases err <;> rfl
  · intro l; rfl

/-- C8 counterexample: on an unrecognized image format the caller of the
picture-insertion routine observes no exception at all — the error does
not propagate out. -/
theorem picture_error_absorbed_cx :
    set_picture (.error ()) "L" = ([PicEvent.paragraph], none) ∧
    (set_picture (.error ()) "L").2 ≠ some () := by decide

/-- C10: the legacy open step of `_add_table_cell` never touches the cell
cursor — a freshly opened legacy table keeps the cursor value left by the
previously open table — and concretely, after a depth-1 cell leaves the
cursor at 1, a depth-0 cell opens a fresh 2-column table and its first
cell is written at column index 1 (column 0 stays empty). -/
theorem cell_cursor_on_legacy_open :
    (∀ (st : TableState) (prev : Option Block) (b : Block),
      (open_phase st prev b).cells = st.cells) ∧
    run_cells 0 ⟨none, 0, 0⟩ none [cellBlock "k1" 1 "X", cellBlock "k2" 0 "A"]
      = ⟨some ⟨2, [["", "A"]]⟩, 2, 2⟩ := by
  constructor
  · intro st prev b
    by_cases h : resetCond prev b
    · simp [open_phase, h]
    · simp only [open_phase, h]
      split <;> rfl
  · decide

/-- A sweep step keeps the element count. -/
theorem bubblePassGo_length (cur : StyleRange) (l : List StyleRange) :
    (bubblePassGo cur l).length = l.length + 1 := by
  induction l generalizing cur with
  | nil => rfl
  | cons b rest ih =>
    unfold bubblePassGo
    split
    · simp [ih]
    · simp [ih]

/-- A sweep keeps the element count. -/
theorem bubblePass_length (l : List StyleRange) : (bubblePass l).length = l.length := by
  cases l with
  | nil => rfl
  | cons a rest => simp [bubblePass, bubblePassGo_length]

/-- Iterated sweeps keep the element count. -/
theorem bubbleIter_length (n : Nat) (l : List StyleRange) :
    (bubbleIter n l).length = l.length := by
  induction n generalizing l with
  | zero => rfl
  | succ n ih => simp [bubbleIter, ih, bubblePass_length]

/-- The in-place sort keeps the element count. -/
theorem bubbleSort_length (l : List StyleRange) : (bubbleSort l).length = l.length := by
  simp [bubbleSort, bubbleIter_length]

/-- One `add_text` call grows the block's range list by the appended
ranges. -/
theorem add_text_ranges_length (em : List (String × Entity)) (b : Block) :
    (add_text_ranges em b).length
      = b.inlineStyleRanges.length + (appendedRanges em b).length := by
  simp [add_text_ranges, bubbleSort_length]

/-- The appended ranges depend only on block fields `add_text` never
mutates. -/
theorem appendedRanges_mutate (em : List (String × Entity)) (b : Block) :
    appendedRanges em (add_text_mutate em b) = appendedRanges em b := rfl

/-- C9: `add_text` mutates its block in place — entity-derived and
synthetic header-step ranges are appended to the block's own
`inlineStyleRanges` list and the bubble sort reorders that same list — so
whenever the call appends at least one range, invoking the step twice on
the same block leaves the list with the appended ranges duplicated
(length grows by twice the appended count) instead of leaving the block
unchanged. -/
theorem add_text_in_place_mutation (em : List (String × Entity)) (b : Block)
    (h : appendedRanges em b ≠ []) :
    (add_text_mutate em (add_text_mutate em b)).inlineStyleRanges.length
      = b.inlineStyleRanges.length + 2 * (appendedRanges em b).length ∧
    add_text_mutate em (add_text_mutate em b) ≠ add_text_mutate em b := by
  have h1 : (add_text_mutate em b).inlineStyleRanges.length
      = b.inlineStyleRanges.length + (appendedRanges em b).length :=
    add_text_ranges_length em b
  have h2 : (add_text_mutate em (add_text_mutate em b)).inlineStyleRanges.length
      = (add_text_mutate em b).inlineStyleRanges.length + (appendedRanges em b).length := by
    have h3 := add_text_ranges_length em (add_text_mutate em b)
    rwa [appendedRanges_mutate] at h3
  constructor
  · rw [h2, h1]; omega
  · intro heq
    have hk : 0 < (appendedRanges em b).length := List.length_pos.mpr h
    have h4 := congrArg (fun x => x.inlineStyleRanges.length) heq
    simp only at h4
    rw [h2, h1] at h4
    omega

/-- Witness for `add_text_in_place_mutation`: a block with one LINK
entity range; a second `add_text` call on the mutated block duplicates
the folded link range. -/
theorem add_text_in_place_mutation_witness :
    appendedRanges exEntityMap exLinkBlock ≠ [] ∧
    ((add_text_mutate exEntityMap (add_text_mutate exEntityMap exLinkBlock)).inlineStyleRanges.length
        = exLinkBlock.inlineStyleRanges.length
          + 2 * (appendedRanges exEntityMap exLinkBlock).length ∧
      add_text_mutate exEntityMap (add_text_mutate exEntityMap exLinkBlock)
        ≠ add_text_mutate exEntityMap exLinkBlock) :=
  ⟨by decide, add_text_in_place_mutation exEntityMap exLinkBlock (by decide)⟩

/-- C7 (amended): a failure while copying a single attribute is caught
only by the handler around the whole merge — the raise aborts the entire
merge, no further attributes or paragraphs are processed, and the merge
returns `None`. -/
theorem merge_abort_on_attr_failure
    (basedFonts : String → Option (String → Except Unit Int)) (attrs : List String)
    (paras : List MPara)
    (h : ∃ p ∈ paras, ∃ g, basedFonts p.styleName = some g ∧
        copy_attrs_fold g attrs p.font = .error ()) :
    docx_merge_styles basedFonts attrs paras = none := by
  suffices hs : merge_paragraphs basedFonts attrs paras = .error () by
    simp [docx_merge_styles, hs]
  induction paras with
  | nil =>
    rcases h with ⟨p, hp, _⟩
    simp at hp
  | cons p ps ih =>
    rcases h with ⟨q, hq, g, hg, hfail⟩
    rcases List.mem_cons.mp hq with rfl | hmem
    · simp only [merge_paragraphs, hg, hfail]
    · have hrec := ih ⟨q, hmem, g, hg, hfail⟩
      cases hb : basedFonts p.styleName with
      | none => simp only [merge_paragraphs, hb, hrec, Except.map]
      | some based =>
        cases hc : copy_attrs_fold based attrs p.font with
        | error e => cases e; simp only [merge_paragraphs, hb, hc]
        | ok f => simp only [merge_paragraphs, hb, hc, hrec, Except.map]

/-- Witness for `merge_abort_on_attr_failure`: the concrete template
sample `exG` whose first attribute copy raises. -/
theorem merge_abort_on_attr_failure_witness :
    copy_attrs_fold exG exAttrs [] = .error () ∧
    docx_merge_styles exBasedFonts exAttrs exParas = none :=
  ⟨rfl, merge_abort_on_attr_failure exBasedFonts exAttrs exParas
    ⟨⟨"Normal", []⟩, by decide, exG, rfl, rfl⟩⟩

/-- With per-article-unique keys (the data-model invariant), the source's
`keys.index(block['key'])` recovers the block's own position. -/
theorem findIdx_key_of_nodup (l : List Block) (hnd : (l.map (fun b => b.key)).Nodup) :
    ∀ (i : Nat) (b : Block), l[i]? = some b → idxOfKey l b.key = i := by
  induction l with
  | nil => intro i b hb; simp at hb
  | cons x t ih =>
    rw [List.map_cons, List.nodup_cons] at hnd
    intro i b hb
    cases i with
    | zero =>
      simp only [List.getElem?_cons_zero, Option.some.injEq] at hb
      subst hb
      simp [idxOfKey, List.findIdx_cons]
    | succ n =>
      simp only [List.getElem?_cons_succ] at hb
      have hmem : b ∈ t := by
        rcases List.getElem?_eq_some.mp hb with ⟨hn, hbe⟩
        exact hbe ▸ List.getElem_mem hn
      have hne : (x.key == b.key) = false := by
        rw [beq_eq_false_iff_ne]
        intro hxk
        exact hnd.1 (hxk ▸ List.mem_map_of_mem (fun b => b.key) hmem)
      simp only [idxOfKey, List.findIdx_cons, hne, cond_false]
      have := ih hnd.2 n b hb
      simp only [idxOfKey] at this
      omega

/-- On a block list with unique keys and no `[1, ?, 2]` pattern at any
cell block, every iteration of the pre-pass leaves the list untouched. -/
theorem normStep_noop (l : List Block)
    (hnd : (l.map (fun b => b.key)).Nodup)
    (hnorm : ∀ (i : Nat) (h : i < l.length),
      (l.get ⟨i, h⟩).type = "cell" →
        ¬((l.get ⟨i, h⟩).depth = 1 ∧ (peekDepths l i).2.2 = 2)) :
    ∀ (fuel i : Nat), normStep fuel l i = l := by
  intro fuel
  induction fuel with
  | zero => intro i; rfl
  | succ n ih =>
    intro i
    unfold normStep
    cases hb : l[i]? with
    | none => rfl
    | some b =>
      rcases List.getElem?_eq_some.mp hb with ⟨hi, hbe⟩
      have hget : l.get ⟨i, hi⟩ = b := by
        rw [List.get_eq_getElem]
        exact hbe
      by_cases hc : b.type = "cell"
      · have hidx : idxOfKey l b.key = i := findIdx_key_of_nodup l hnd i b hb
        have hno := hnorm i hi (by rw [hget]; exact hc)
        rw [hget] at hno
        simp only [hc, if_true, hidx, hno, if_false]
        exact ih (i + 1)
      · simp only [hc, if_false]
        exact ih (i + 1)

/-- C3: running the depth-normalization pre-pass on an article block list
that is already normalized — keys unique and no cell block exhibiting the
`[1, ?, 2]` depth pattern — changes nothing, so re-running the pre-pass on
its own (normalized) output is a no-op: the pre-pass is idempotent. -/
theorem normalize_prepass_idempotent (l : List Block)
    (hnd : (l.map (fun b => b.key)).Nodup)
    (hnorm : ∀ (i : Nat) (h : i < l.length),
      (l.get ⟨i, h⟩).type = "cell" →
        ¬((l.get ⟨i, h⟩).depth = 1 ∧ (peekDepths l i).2.2 = 2)) :
    normalizeDepths l = l :=
  normStep_noop l hnd hnorm l.length 0

/-- Witness for `normalize_prepass_idempotent` on a concrete normalized
two-cell article. -/
theorem normalize_prepass_idempotent_witness :
    ((normBlocks.map (fun b => b.key)).Nodup ∧
      ∀ (i : Nat) (h : i < normBlocks.length),
        (normBlocks.get ⟨i, h⟩).type = "cell" →
          ¬((normBlocks.get ⟨i, h⟩).depth = 1 ∧ (peekDepths normBlocks i).2.2 = 2)) ∧
    normalizeDepths normBlocks = normBlocks :=
  ⟨⟨by decide, by decide⟩,
    normalize_prepass_idempotent normBlocks (by decide) (by decide)⟩

/-- One article's block pass: the counter advances by the article's
header-step count, and the recorded numbers are the consecutive run
starting right after the incoming counter value. -/
theorem article_steps_spec (bs : List Block) : ∀ n : Nat,
    (article_header_steps n bs).1 = n + cntSteps bs ∧
    (article_header_steps n bs).2.filterMap id
      = (List.range' (n + 1) (cntSteps bs)).map (fun m => (m, header_step_text m)) := by
  induction bs with
  | nil => intro n; simp [article_header_steps, cntSteps]
  | cons b rest ih =>
    intro n
    by_cases hb : (b.type == "header-step") = true
    · have hstep : article_header_steps n (b :: rest)
          = ((article_header_steps (n + 1) rest).1,
             some (n + 1, header_step_text (n + 1))
               :: (article_header_steps (n + 1) rest).2) := by
        simp [article_header_steps, hb]
      have hcnt : cntSteps (b :: rest) = cntSteps rest + 1 := by
        simp [cntSteps, List.countP_cons, hb]
      constructor
      · simp only [hstep, hcnt]
        rw [(ih (n + 1)).1]; omega
      · simp only [hstep, hcnt]
        have hfm : List.filterMap id (some (n + 1, header_step_text (n + 1))
            :: (article_header_steps (n + 1) rest).2)
            = (n + 1, header_step_text (n + 1))
              :: List.filterMap id (article_header_steps (n + 1) rest).2 := by simp
        rw [hfm, List.range'_succ, List.map_cons, (ih (n + 1)).2]
    · have hstep : article_header_steps n (b :: rest)
          = ((article_header_steps n rest).1,
             none :: (article_header_steps n rest).2) := by
        simp [article_header_steps, hb]
      have hcnt : cntSteps (b :: rest) = cntSteps rest := by
        simp [cntSteps, List.countP_cons, hb]
      constructor
      · simp only [hstep, hcnt]
        exact (ih n).1
      · simp only [hstep, hcnt]
        have hfm : List.filterMap id (none :: (article_header_steps n rest).2)
            = List.filterMap id (article_header_steps n rest).2 := by simp
        rw [hfm, (ih n).2]

/-- The book loop threads the counter across articles: the recorded
numbers over the whole book are one consecutive run. -/
theorem book_steps_spec (arts : List (List Block)) : ∀ n : Nat,
    (book_header_steps n arts).flatten.filterMap id
      = (List.range' (n + 1) (totalSteps arts)).map (fun m => (m, header_step_text m)) := by
  induction arts with
  | nil => intro n; simp [book_header_steps, totalSteps]
  | cons art arts ih =>
    intro n
    have ha := article_steps_spec art n
    have hstep : book_header_steps n (art :: arts)
        = (article_header_steps n art).2
          :: book_header_steps (article_header_steps n art).1 arts := by
      simp [book_header_steps]
    rw [hstep, List.flatten_cons, List.filterMap_append, ha.2, ha.1,
      ih (n + cntSteps art), ← List.map_append]
    congr 1
    rw [show n + cntSteps art + 1 = n + 1 + cntSteps art by omega,
      List.range'_append_1 (n + 1) (cntSteps art) (totalSteps arts)]
    have htot : totalSteps (art :: arts) = cntSteps art + totalSteps arts := by
      simp [totalSteps]
    rw [htot, Nat.add_comm (cntSteps art) (totalSteps arts)]

/-- C6 (amended): the header-step counter is reset at the start of each
book — not of each article — and threaded across the book's articles;
each header-step block increments it exactly once, so over one book the
recorded values form the consecutive run 1, 2, ... in block order across
article boundaries, each rendered as the text `toString n ++ ". "`; the
synthetic `header-step` style applied to that text maps to bold. -/
theorem header_step_counter (articles : List (List Block)) :
    (export_header_steps articles).flatten.filterMap id
      = (List.range' 1 (totalSteps articles)).map (fun m => (m, toString m ++ ". ")) ∧
    set_styles_bold (.str "header-step") = true := by
  constructor
  · have h := book_steps_spec articles 0
    simpa [export_header_steps, header_step_text] using h
  · rfl

/-- Every branch of the legacy column table yields at least one column. -/
theorem openCols_pos : ∀ d : Nat, 1 ≤ openCols d
  | 0 => by decide
  | 1 => by decide
  | 2 => by decide
  | 3 => by decide
  | _ + 4 => Nat.le.refl

/-- Reading the last element of `init ++ [row]` by default-index yields
`row`. -/
theorem getD_append_last {α : Type} (init : List α) (row d : α) :
    (init ++ [row]).getD init.length d = row := by
  induction init with
  | nil => rfl
  | cons x t ih => simp [ih]

/-- Setting at the end of `init ++ [row]` replaces `row`. -/
theorem set_append_last {α : Type} (init : List α) (row v : α) :
    (init ++ [row]).set init.length v = init ++ [v] := by
  rw [List.set_append_right _ _ (Nat.le_refl _)]
  simp

/-- Writing the next cell of a partially filled padded row extends the
fill by one. -/
theorem padTo_set (c : Nat) (pre : List String) (t : String) (h : pre.length < c) :
    (padTo c pre).set pre.length t = padTo c (pre ++ [t]) := by
  unfold padTo
  rw [List.set_append_right _ _ (Nat.le_refl _), Nat.sub_self]
  have h1 : c - pre.length = (c - (pre ++ [t]).length) + 1 := by
    simp only [List.length_append, List.length_cons, List.length_nil]
    omega
  rw [h1, List.replicate_succ]
  simp

/-- A row already at full width is unchanged by padding. -/
theorem padTo_full (c : Nat) (pre : List String) (h : pre.length = c) :
    padTo c pre = pre := by
  simp [padTo, h]

/-- Writing the first cell of a fresh all-empty row gives the padded
one-element row. -/
theorem replicate_set_zero (c : Nat) (t : String) (h : 1 ≤ c) :
    (List.replicate c "").set 0 t = padTo c [t] := by
  cases c with
  | zero => omega
  | succ k => simp [List.replicate_succ, padTo]

/-- The fuel of `chunkPadAux` is irrelevant once it covers the list
length. -/
theorem chunkPadAux_irrel (c : Nat) : ∀ (f₁ f₂ : Nat) (ts : List String),
    ts.length ≤ f₁ → ts.length ≤ f₂ → chunkPadAux c f₁ ts = chunkPadAux c f₂ ts := by
  intro f₁
  induction f₁ with
  | zero =>
    intro f₂ ts h1 h2
    cases ts with
    | nil => cases f₂ <;> rfl
    | cons t ts' => simp at h1
  | succ n ih =>
    intro f₂ ts h1 h2
    cases ts with
    | nil => cases f₂ <;> rfl
    | cons t ts' =>
      cases f₂ with
      | zero => simp at h2
      | succ m =>
        simp only [chunkPadAux]
        congr 1
        apply ih
        · have := List.length_drop (c - 1) ts'
          simp at h1
          omega
        · have := List.length_drop (c - 1) ts'
          simp at h2
          omega

/-- Recursion equation of `chunkPad` on a nonempty list. -/
theorem chunkPad_cons (c : Nat) (t : String) (ts : List String) :
    chunkPad c (t :: ts)
      = padTo c (t :: ts.take (c - 1)) :: chunkPad c (ts.drop (c - 1)) := by
  show chunkPadAux c (ts.length + 1) (t :: ts) = _
  simp only [chunkPadAux]
  congr 1
  apply chunkPadAux_irrel
  · have := List.length_drop (c - 1) ts
    omega
  · exact Nat.le_refl _

/-- The write step's row filling, started on a partially filled padded
row, produces exactly the spec-side chunked distribution. -/
theorem fillFrom_spec (c : Nat) (hc : 1 ≤ c) :
    ∀ (ts pre : List String), 1 ≤ pre.length → pre.length ≤ c →
      (fillFrom c (padTo c pre) pre.length ts).1 = chunkPad c (pre ++ ts) := by
  intro ts
  induction ts with
  | nil =>
    intro pre h1 h2
    simp only [fillFrom, List.append_nil]
    cases pre with
    | nil => simp at h1
    | cons q qs =>
      rw [chunkPad_cons]
      have hlen : qs.length ≤ c - 1 := by
        simp only [List.length_cons] at h2
        omega
      rw [List.take_of_length_le hlen, List.drop_of_length_le hlen]
      rfl
  | cons t ts' ih =>
    intro pre h1 h2
    by_cases hp : pre.length < c
    · simp only [fillFrom, if_pos hp]
      rw [padTo_set c pre t hp]
      have hlen : pre.length + 1 = (pre ++ [t]).length := by simp
      have hle : (pre ++ [t]).length ≤ c := by simp; omega
      rw [hlen, ih (pre ++ [t]) (by simp) hle, List.append_assoc]
      rfl
    · have hpc : pre.length = c := Nat.le_antisymm h2 (Nat.not_lt.mp hp)
      simp only [fillFrom, if_neg hp]
      rw [replicate_set_zero c t hc, padTo_full c pre hpc]
      cases pre with
      | nil => simp at h1
      | cons q qs =>
        have hq : qs.length = c - 1 := by
          simp only [List.length_cons] at hpc
          omega
        rw [List.cons_append, chunkPad_cons]
        rw [List.take_left' hq, List.drop_left' hq]
        congr 1
        · rw [padTo_full]
          simpa using hpc
        · have h3 := ih [t] (by simp) (by simpa using hc)
          simpa using h3

/-- Fuel-level row-count formula for the chunked distribution. -/
theorem chunkPadAux_length (c : Nat) (hc : 1 ≤ c) :
    ∀ (f : Nat) (ts : List String), ts.length ≤ f →
      (chunkPadAux c f ts).length = (ts.length + c - 1) / c := by
  intro f
  induction f with
  | zero =>
    intro ts h
    cases ts with
    | nil =>
      simp only [chunkPadAux, List.length_nil]
      rw [Nat.div_eq_of_lt (by omega)]
    | cons t ts' => simp at h
  | succ n ih =>
    intro ts h
    cases ts with
    | nil =>
      simp only [chunkPadAux, List.length_nil]
      rw [Nat.div_eq_of_lt (by omega)]
    | cons t ts' =>
      simp only [chunkPadAux, List.length_cons]
      rw [ih (ts'.drop (c - 1)) (by
        have := List.length_drop (c - 1) ts'
        simp only [List.length_cons] at h
        omega)]
      rw [List.length_drop]
      by_cases hcase : c - 1 ≤ ts'.length
      · rw [show ts'.length - (c - 1) + c - 1 = ts'.length by omega]
        rw [show ts'.length + 1 + c - 1 = ts'.length + c by omega]
        rw [Nat.add_div_right _ (by omega)]
      · rw [show ts'.length - (c - 1) = 0 by omega]
        rw [show 0 + c - 1 = c - 1 by omega]
        rw [Nat.div_eq_of_lt (by omega)]
        rw [show ts'.length + 1 + c - 1 = ts'.length + c by omega]
        rw [Nat.add_div_right _ (by omega)]
        rw [Nat.div_eq_of_lt (by omega)]

/-- Row-count formula: the chunked distribution of `N` texts over width
`c` rows occupies `ceil(N / c)` rows. -/
theorem chunkPad_length (c : Nat) (hc : 1 ≤ c) (ts : List String) :
    (chunkPad c ts).length = (ts.length + c - 1) / c :=
  chunkPadAux_length c hc ts.length ts (Nat.le_refl _)

/-- Within a legacy run of same-depth cells after the first, the table
never resets and each block just writes its cell: the fold computes
exactly `fillFrom`. -/
theorem run_cells_write (ver c d o : Nat) (hver : ver ≠ 3) :
    ∀ (rest : List Block) (prevb : Block) (init : List (List String))
      (row : List String) (p : Nat),
      prevb.type = "cell" → prevb.depth = d →
      (∀ b ∈ rest, b.type = "cell" ∧ b.depth = d) →
      run_cells ver ⟨some ⟨c, init ++ [row]⟩, p, o⟩ (some prevb) rest
        = ⟨some ⟨c, init ++ (fillFrom c row p (rest.map Block.text)).1⟩,
           (fillFrom c row p (rest.map Block.text)).2, o⟩ := by
  intro rest
  induction rest with
  | nil =>
    intro prevb init row p hpt hpd hrest
    simp [run_cells, fillFrom]
  | cons b rest' ih =>
    intro prevb init row p hpt hpd hrest
    have hb := hrest b (by simp)
    have hreset : resetCond (some prevb) b = false := by
      simp [resetCond, hpt, hpd, hb.1, hb.2]
    have hopen : open_phase ⟨some ⟨c, init ++ [row]⟩, p, o⟩ (some prevb) b
        = ⟨some ⟨c, init ++ [row]⟩, p, o⟩ := by
      simp [open_phase, hreset]
    have hstep : add_table_cell ver ⟨some ⟨c, init ++ [row]⟩, p, o⟩ (some prevb) b
        = write_phase ⟨some ⟨c, init ++ [row]⟩, p, o⟩ b.text := by
      unfold add_table_cell
      rw [if_neg hver, hopen]
    rw [run_cells, hstep]
    have hrest' : ∀ x ∈ rest', x.type = "cell" ∧ x.depth = d :=
      fun x hx => hrest x (by simp [hx])
    by_cases hp : p < c
    · have hw : write_phase ⟨some ⟨c, init ++ [row]⟩, p, o⟩ b.text
          = ⟨some ⟨c, init ++ [row.set p b.text]⟩, p + 1, o⟩ := by
        simp only [write_phase, if_pos hp]
        rw [show (init ++ [row]).length - 1 = init.length by simp]
        rw [getD_append_last, set_append_last]
      rw [hw, ih b init (row.set p b.text) (p + 1) hb.1 hb.2 hrest']
      simp only [List.map_cons, fillFrom, if_pos hp]
    · have hw : write_phase ⟨some ⟨c, init ++ [row]⟩, p, o⟩ b.text
          = ⟨some ⟨c, (init ++ [row]) ++ [(List.replicate c "").set 0 b.text]⟩, 1, o⟩ := by
        simp only [write_phase, if_neg hp]
      rw [hw, ih b (init ++ [row]) ((List.replicate c "").set 0 b.text) 1 hb.1 hb.2 hrest']
      simp only [List.map_cons, fillFrom, if_neg hp, List.append_assoc,
        List.cons_append, List.nil_append]

/-- Writing the first text into a freshly opened one-row table fills the
first cell of its only row. -/
theorem write_phase_fresh (c o : Nat) (s : String) (hc : 0 < c) :
    write_phase ⟨some ⟨c, [List.replicate c ""]⟩, 0, o⟩ s
      = ⟨some ⟨c, [padTo c [s]]⟩, 1, o⟩ := by
  simp only [write_phase]
  rw [if_pos hc]
  rw [show ([List.replicate c ""] : List (List String)).length - 1 = 0 from rfl]
  rw [show (([List.replicate c ""] : List (List String)).getD 0 []) = List.replicate c ""
    from rfl]
  rw [replicate_set_zero c s hc]
  rfl

/-- C2 (amended): on the legacy path, a run of `N ≥ 1` consecutive cell
blocks at constant depth `d`, entered with the cell cursor at 0 and the
lookback test firing on the first block, opens exactly one table
(`opens` grows by one) with `columnsForDepth_spec d` columns; the `N`
texts are distributed over its rows in order with the last row implicitly
zero-padded (`chunkPad`), occupying `ceil(N / columnsForDepth_spec d)`
rows. -/
theorem table_cell_grouping (ver d o : Nat) (tbl : Option DTable) (prev : Option Block)
    (b0 : Block) (rest : List Block)
    (hver : ver ≠ 3)
    (hb0 : b0.type = "cell") (hd0 : b0.depth = d)
    (hrest : ∀ b ∈ rest, b.type = "cell" ∧ b.depth = d)
    (hreset : resetCond prev b0 = true) :
    ∃ p, run_cells ver ⟨tbl, 0, o⟩ prev (b0 :: rest)
        = ⟨some ⟨columnsForDepth_spec d,
            chunkPad (columnsForDepth_spec d) ((b0 :: rest).map Block.text)⟩, p, o + 1⟩
      ∧ (chunkPad (columnsForDepth_spec d) ((b0 :: rest).map Block.text)).length
        = ((b0 :: rest).length + columnsForDepth_spec d - 1) / columnsForDepth_spec d := by
  have hc : 1 ≤ columnsForDepth_spec d := by
    rw [← openCols_eq_spec]
    exact openCols_pos d
  have hopen : open_phase ⟨tbl, 0, o⟩ prev b0
      = ⟨some ⟨columnsForDepth_spec d,
          [List.replicate (columnsForDepth_spec d) ""]⟩, 0, o + 1⟩ := by
    simp [open_phase, hreset, hd0, openCols_eq_spec]
  have hwrite := write_phase_fresh (columnsForDepth_spec d) (o + 1) b0.text hc
  have hstep : add_table_cell ver ⟨tbl, 0, o⟩ prev b0
      = ⟨some ⟨columnsForDepth_spec d,
          [padTo (columnsForDepth_spec d) [b0.text]]⟩, 1, o + 1⟩ := by
    unfold add_table_cell
    rw [if_neg hver, hopen, hwrite]
  refine ⟨(fillFrom (columnsForDepth_spec d) (padTo (columnsForDepth_spec d) [b0.text])
      1 (rest.map Block.text)).2, ?_, ?_⟩
  · rw [run_cells, hstep]
    have hrun := run_cells_write ver (columnsForDepth_spec d) d (o + 1) hver rest b0
      [] (padTo (columnsForDepth_spec d) [b0.text]) 1 hb0 hd0 hrest
    simp only [List.nil_append] at hrun
    rw [hrun]
    have hfill := fillFrom_spec (columnsForDepth_spec d) hc (rest.map Block.text) [b0.text]
      (by simp) (by simpa using hc)
    simp only [List.length_cons, List.length_nil, List.singleton_append] at hfill
    rw [hfill]
    rfl
  · rw [chunkPad_length _ hc]
    simp

/-- Witness for `table_cell_grouping`: three depth-0 cells "A", "B", "C"
from a fresh book state yield one 2-column table with rows
`["A", "B"]` and `["C", ""]`, i.e. `ceil(3 / 2) = 2` rows. -/
theorem table_cell_grouping_witness :
    ((∀ b ∈ [cellBlock "kb" 0 "B", cellBlock "kc" 0 "C"], b.type = "cell" ∧ b.depth = 0) ∧
      resetCond none (cellBlock "ka" 0 "A") = true ∧ (0 : Nat) ≠ 3) ∧
    (∃ p, run_cells 0 ⟨none, 0, 0⟩ none
        [cellBlock "ka" 0 "A", cellBlock "kb" 0 "B", cellBlock "kc" 0 "C"]
        = ⟨some ⟨2, [["A", "B"], ["C", ""]]⟩, p, 0 + 1⟩
      ∧ ([["A", "B"], ["C", ""]] : List (List String)).length = (3 + 2 - 1) / 2) :=
  ⟨⟨by decide, by decide, by decide⟩,
    table_cell_grouping 0 0 0 none none (cellBlock "ka" 0 "A")
      [cellBlock "kb" 0 "B", cellBlock "kc" 0 "C"]
      (by decide) (by decide) (by decide) (by decide) (by decide)⟩

end DocsieDocx
